import Mathlib

/-!
Verification of the mechaway workflow engine (axum-backend).

Shallow embedding of the data model and the operations of:
  - src/workflow/types.rs     (Workflow, Node, NodeType, Edge, ExecutionContext)
  - src/workflow/registry.rs  (CompiledWorkflow, compile_single_workflow)
  - src/runtime/executor.rs   (pin evaluation, Lua-expression safety check,
                               node dispatch, FunLogic and SimpleTableQuery nodes)
  - src/runtime/engine.rs     (reachability, topological execution)
  - src/runtime/scheduler.rs  (cron job handle map removal)
  - src/api/workflows.rs      (update_workflow handler)

Rust strings are modelled as `List Char`; the byte-level operations used by the
source (`starts_with`, `contains`, slicing at ASCII prefixes, `split('.')`)
coincide with the character-level ones on all inputs the claims quantify over.
External library calls (the mlua interpreter, serde_json literal parsing,
sqlx row fetching, the petgraph toposort and the tokio-cron runtime) are
abstracted as explicit function parameters or hypotheses stating exactly the
contract the library guarantees; everything else is translated from the source.
-/

namespace Mechaway

/-- serde_json::Value. Numbers are modelled as integers; no claim in this
development depends on float arithmetic. Objects are association lists
(serde preserves one value per key). -/
inductive Json where
  | null : Json
  | bool : Bool → Json
  | num : Int → Json
  | str : String → Json
  | arr : List Json → Json
  | obj : List (String × Json) → Json
  deriving Repr

/-- workflow/types.rs NodeType: the closed enumeration of node variants. -/
inductive NodeType where
  | Webhook
  | FunLogic
  | SimpleTableWriter
  | SimpleTableReader
  | SimpleTableQuery
  | CronTrigger
  | HTTPClient
  | PGQuery
  | PGDynTableWriter
  | MCPTrigger
  | WebSocketTrigger
  | MQTTTrigger
  deriving Repr, DecidableEq

/-- workflow/types.rs Edge: a directed dependency between two node ids. -/
structure Edge where
  src : String
  dst : String
  deriving Repr, DecidableEq

/-- workflow/types.rs Node. `params` is the free-form JSON parameter map;
`inputs`/`outputs`/`secrets` are the optional pin expression lists. -/
structure Node where
  id : String
  node_type : NodeType
  params : Json
  inputs : Option (List (List Char)) := none
  outputs : Option (List (List Char)) := none
  secrets : Option (List (List Char)) := none
  deriving Repr

/-- workflow/types.rs Workflow. -/
structure Workflow where
  id : String
  name : String
  nodes : List Node
  edges : List Edge
  deriving Repr

/-- workflow/types.rs FileInfo (uploaded file record). -/
structure FileInfo where
  filename : String
  content_type : String
  size : Nat
  path : String
  deriving Repr

/-- workflow/types.rs ExecutionContext: the mutable state threaded between
nodes. The string-keyed maps are association lists. -/
structure ExecutionContext where
  data : List Json
  files : List (String × FileInfo) := []
  query : List (String × String) := []
  headers : List (String × String) := []
  metadata : List (String × Json) := []
  project_slug : String := "default"
  deriving Repr

/-- runtime/executor.rs ExecutionResult. -/
structure ExecutionResult where
  data : List Json
  metadata : List (String × Json)
  should_continue : Bool
  deriving Repr

/-- Rust str::starts_with on character lists. -/
def rust_starts_with (s pat : List Char) : Bool :=
  pat.isPrefixOf s

/-- Rust str::contains on character lists: some suffix of the haystack
has the needle as a prefix. -/
def rust_contains : List Char → List Char → Bool
  | [], needle => needle.isEmpty
  | c :: t, needle => needle.isPrefixOf (c :: t) || rust_contains t needle

/-- Rust str::split(sep): splitting never yields the empty list and keeps
empty fragments ("a..b" yields ["a", "", "b"], "" yields [""]). -/
def split_on_char (sep : Char) : List Char → List (List Char)
  | [] => [[]]
  | c :: t =>
    if c = sep then [] :: split_on_char sep t
    else
      match split_on_char sep t with
      | [] => [[c]]
      | h :: r => (c :: h) :: r

/-- Association-list lookup, as used for serde_json maps and HashMaps. -/
def assoc_get {α : Type} (l : List (String × α)) (key : String) : Option α :=
  (l.find? (fun kv => kv.fst = key)).map (fun kv => kv.snd)

/-- serde_json Value::get(key): field of an object, None on any other variant. -/
def json_get (j : Json) (key : String) : Option Json :=
  match j with
  | .obj fields => assoc_get fields key
  | _ => none

/-- serde_json Value::as_str. -/
def json_as_str (j : Json) : Option String :=
  match j with
  | .str s => some s
  | _ => none

/-- serde_json Value::as_array. -/
def json_as_array (j : Json) : Option (List Json) :=
  match j with
  | .arr a => some a
  | _ => none

/-- executor.rs is_safe_lua_expression: whitelisted substrings. -/
def safe_patterns : List (List Char) :=
  ["date(".data, "time()".data, "now()".data,
   "math.".data, "string.".data,
   "uuid()".data, "hash(".data]

/-- executor.rs is_safe_lua_expression: blacklisted substrings. -/
def dangerous_patterns : List (List Char) :=
  ["os.".data, "io.".data, "debug.".data, "package.".data, "require".data,
   "load".data, "dofile".data, "loadfile".data, "loadstring".data,
   "rawget".data, "rawset".data, "getmetatable".data,
   "setmetatable".data, "_G".data, "_ENV".data, "coroutine".data,
   "collectgarbage".data]

/-- The character class admitted for plain expressions in
is_safe_lua_expression (space + - * / ( ) [ ] braces . , double quote,
single quote, underscore, percent; braces and quotes built from code points). -/
def simple_allowed_chars : List Char :=
  [' ', '+', '-', '*', '/', '(', ')', '[', ']',
   Char.ofNat 123, Char.ofNat 125, '.', ',',
   Char.ofNat 34, Char.ofNat 39, '_', '%']

/-- executor.rs is_safe_lua_expression (lines 327-359): dangerous substrings
reject first; then whitelisted substrings accept; otherwise accept only short
expressions over the simple character class. (Rust checks byte length and
Unicode alphanumerics; on the inputs of the claims these agree with the
character-level model.) -/
def is_safe_lua_expression (expr : List Char) : Bool :=
  if dangerous_patterns.any (fun p => rust_contains expr p) then
    false
  else if safe_patterns.any (fun p => rust_contains expr p) then
    true
  else
    decide (expr.length < 200) &&
      expr.all (fun c => c.isAlphanum || simple_allowed_chars.contains c)

/-- executor.rs extract_json_field walk: follow dot-path parts through object
fields, Null as soon as a non-object is entered with parts remaining, missing
keys become Null. -/
def json_field_walk : Json → List (List Char) → Json
  | current, [] => current
  | current, part :: rest =>
    match current with
    | .obj fields =>
      json_field_walk ((assoc_get fields (String.mk part)).getD .null) rest
    | _ => .null

/-- executor.rs extract_json_field (lines 306-324): first element of the data
array (Null when empty), then the dot-path walk. Always returns Ok. -/
def extract_json_field (data_array : List Json) (field_path : List Char) :
    Except String Json :=
  .ok (json_field_walk ((data_array.get? 0).getD .null)
        (split_on_char '.' field_path))

/-- executor.rs extract_file_field: file record as a JSON object, Null when
the field is absent. -/
def extract_file_field (files : List (String × FileInfo))
    (field_name : List Char) : Except String Json :=
  match assoc_get files (String.mk field_name) with
  | some fi =>
    .ok (.obj [("filename", .str fi.filename),
               ("content_type", .str fi.content_type),
               ("size", .num (Int.ofNat fi.size)),
               ("path", .str fi.path)])
  | none => .ok .null

/-- executor.rs extract_query_param. -/
def extract_query_param (query : List (String × String))
    (param_name : List Char) : Except String Json :=
  match assoc_get query (String.mk param_name) with
  | some v => .ok (.str v)
  | none => .ok .null

/-- executor.rs extract_header_value. -/
def extract_header_value (headers : List (String × String))
    (header_name : List Char) : Except String Json :=
  match assoc_get headers (String.mk header_name) with
  | some v => .ok (.str v)
  | none => .ok .null

/-- executor.rs extract_websocket_field / extract_mqtt_field /
extract_mcp_field share this body with sub set to "websocket" / "mqtt" /
"mcp": sub-object of the first data item, then the named field. -/
def extract_sub_field (data : List Json) (sub : String)
    (field_name : List Char) : Except String Json :=
  let first := (data.get? 0).getD .null
  match json_get first sub with
  | some subData => .ok ((json_get subData (String.mk field_name)).getD .null)
  | none => .ok .null

/-- executor.rs evaluate_input_pins, single pin (lines 146-176). The sandboxed
Lua evaluation (execute_safe_lua_expression followed by lua_to_json) is the
parameter luaEval; the serde_json literal fallback
(from_str with a raw-string default) is the parameter parseLiteral. -/
def evaluate_pin (luaEval : List Char → Except String Json)
    (parseLiteral : List Char → Json)
    (context : ExecutionContext) (pin_expr : List Char) : Except String Json :=
  if rust_starts_with pin_expr "$json.".data then
    extract_json_field context.data (pin_expr.drop 6)
  else if pin_expr = "$json".data then
    .ok ((context.data.get? 0).getD .null)
  else if rust_starts_with pin_expr "$file.".data then
    extract_file_field context.files (pin_expr.drop 6)
  else if rust_starts_with pin_expr "$query.".data then
    extract_query_param context.query (pin_expr.drop 7)
  else if rust_starts_with pin_expr "$headers.".data then
    extract_header_value context.headers (pin_expr.drop 9)
  else if rust_starts_with pin_expr "$websocket.".data then
    extract_sub_field context.data "websocket" (pin_expr.drop 11)
  else if rust_starts_with pin_expr "$mqtt.".data then
    extract_sub_field context.data "mqtt" (pin_expr.drop 6)
  else if rust_starts_with pin_expr "$mcp.".data then
    extract_sub_field context.data "mcp" (pin_expr.drop 5)
  else if is_safe_lua_expression pin_expr then
    luaEval pin_expr
  else
    .ok (parseLiteral pin_expr)

/-- executor.rs evaluate_input_pins: evaluate each pin in order, propagating
the first error. -/
def evaluate_input_pins (luaEval : List Char → Except String Json)
    (parseLiteral : List Char → Json) (pins : List (List Char))
    (context : ExecutionContext) : Except String (List Json) :=
  match pins with
  | [] => .ok []
  | p :: rest => do
    let v ← evaluate_pin luaEval parseLiteral context p
    let vs ← evaluate_input_pins luaEval parseLiteral rest context
    .ok (v :: vs)

/-- Ids of the nodes of a workflow, in declaration order. -/
def node_ids (w : Workflow) : List String :=
  w.nodes.map (fun n => n.id)

/-- Targets of the edges leaving a given node id. -/
def successors (w : Workflow) (id : String) : List String :=
  (w.edges.filter (fun e => e.src = id)).map (fun e => e.dst)

/-- One BFS expansion step of engine.rs find_reachable_nodes: walk the
neighbor list in order, inserting each target not yet visited into both the
visited set and the newly-discovered list. -/
def bfs_visit (visited : List String) (targets : List String) :
    List String × List String :=
  targets.foldl
    (fun acc t =>
      if acc.fst.contains t then acc else (acc.fst ++ [t], acc.snd ++ [t]))
    (visited, [])

/-- engine.rs find_reachable_nodes (lines 42-63), breadth-first forward
traversal. The fuel bounds the number of queue pops; every queued id was
inserted unvisited exactly once, so edges+2 pops exhaust the queue and the
fueled loop computes the same set as the Rust while-loop. -/
def bfs_reach (w : Workflow) : Nat → List String → List String → List String
  | 0, _, visited => visited
  | _ + 1, [], visited => visited
  | fuel + 1, current :: queue, visited =>
    let step := bfs_visit visited (successors w current)
    bfs_reach w fuel (queue ++ step.snd) step.fst

/-- Set of node ids forward-reachable from the start id (including it). -/
def find_reachable_nodes (w : Workflow) (start : String) : List String :=
  bfs_reach w (w.edges.length + 2) [start] [start]

/-- engine.rs build_workflow_graph edge insertion (lines 203-211): every edge
endpoint must name a known node, otherwise graph construction fails. -/
def edges_valid (w : Workflow) : Bool :=
  w.edges.all (fun e =>
    (node_ids w).contains e.src && (node_ids w).contains e.dst)

/-- The trigger variants the engine special-cases (engine.rs lines 107-108 and
126-128): only Webhook and CronTrigger, not the reserved trigger variants. -/
def is_webhook_or_cron (t : NodeType) : Bool :=
  t = NodeType.Webhook || t = NodeType.CronTrigger

/-- A valid topological order of the workflow graph: a permutation of the
node ids in which every edge goes from an earlier to a later position. This
is exactly the postcondition petgraph toposort guarantees when it succeeds. -/
structure IsTopoOrder (w : Workflow) (ord : List String) : Prop where
  perm : ord.Perm (node_ids w)
  respects : ∀ e ∈ w.edges, List.Sublist [e.src, e.dst] ord

/-- The execution loop of engine.rs execute_workflow (lines 135-172),
instrumented to also return the ids of the nodes actually handed to the
executor: stop silently when should_continue is false, update the context
from the running result, skip Webhook nodes, dispatch, abort on the first
node error. -/
def exec_loop (exec : Node → ExecutionContext → Except String ExecutionResult) :
    List Node → ExecutionContext → ExecutionResult →
    List String × Except String ExecutionResult
  | [], _, cur => ([], .ok cur)
  | node :: rest, ctx, cur =>
    if cur.should_continue = false then ([], .ok cur)
    else
      let ctx2 := { ctx with data := cur.data, metadata := cur.metadata }
      if node.node_type = NodeType.Webhook then exec_loop exec rest ctx2 cur
      else
        match exec node ctx2 with
        | .error e =>
          ([node.id],
           .error ("Node execution failed for " ++ node.id ++ ": " ++ e))
        | .ok r =>
          let next := exec_loop exec rest ctx2 r
          (node.id :: next.fst, next.snd)

/-- The per-id filter of the engine execution list (engine.rs lines
125-130): keep the node when its id is reachable and its type is neither
Webhook nor CronTrigger. -/
def engine_keep (w : Workflow) (reach : List String) (id : String) :
    Option Node :=
  match w.nodes.find? (fun n => n.id = id) with
  | some n =>
    if reach.contains id && !is_webhook_or_cron n.node_type
    then some n else none
  | none => none

/-- engine.rs execute_workflow (lines 70-179). The petgraph toposort result is
the parameter topo (the theorems constrain it by IsTopoOrder, the
postcondition toposort guarantees on success; on a cyclic graph the source
fails before reaching any of this). Returns the dispatched node ids together
with the final result. -/
def execute_workflow_from_topo
    (exec : Node → ExecutionContext → Except String ExecutionResult)
    (w : Workflow) (topo : List String) (start_node_id : String)
    (context : ExecutionContext) :
    List String × Except String ExecutionResult :=
  if edges_valid w then
    match w.nodes.find? (fun n => n.id = start_node_id) with
    | none => ([], .error ("Start node not found: " ++ start_node_id))
    | some start_node =>
      match topo.findIdx? (fun id => id = start_node_id) with
      | none => ([], .error "Start node not found in topological order")
      | some start_pos =>
        if is_webhook_or_cron start_node.node_type &&
            decide (start_pos + 1 ≥ topo.length) then
          ([], .error "Start node has no connected processing nodes")
        else
          let reachable := find_reachable_nodes w start_node_id
          let nodes_to_execute := topo.filterMap (engine_keep w reachable)
          let initial : ExecutionResult :=
            { data := context.data, metadata := context.metadata,
              should_continue := true }
          exec_loop exec nodes_to_execute context initial
  else
    ([], .error "Edge references unknown node")

/-- Debug rendering of node types, as produced by format with the Debug
derive in executor.rs metadata updates. -/
def node_type_name : NodeType → String
  | .Webhook => "Webhook"
  | .FunLogic => "FunLogic"
  | .SimpleTableWriter => "SimpleTableWriter"
  | .SimpleTableReader => "SimpleTableReader"
  | .SimpleTableQuery => "SimpleTableQuery"
  | .CronTrigger => "CronTrigger"
  | .HTTPClient => "HTTPClient"
  | .PGQuery => "PGQuery"
  | .PGDynTableWriter => "PGDynTableWriter"
  | .MCPTrigger => "MCPTrigger"
  | .WebSocketTrigger => "WebSocketTrigger"
  | .MQTTTrigger => "MQTTTrigger"

/-- HashMap::insert on an association list: replace the existing binding of
the key, or append a fresh one. Also models the SQL upsert of storage.rs
save_workflow (INSERT ... ON CONFLICT(id) DO UPDATE). -/
def assoc_insert {α : Type} : List (String × α) → String → α → List (String × α)
  | [], k, v => [(k, v)]
  | kv :: t, k, v =>
    if kv.fst = k then (k, v) :: t else kv :: assoc_insert t k v

/-- executor.rs execute_node (lines 56-135): metadata bookkeeping, then
dispatch on the node type. The five trigger variants fail with their
"should not be executed directly" errors; the seven effectful handlers
(Lua, SQLite, HTTP, Postgres) are the parameter handlers; the wall-clock
timestamp written into execution_start is the parameter now. -/
def execute_node
    (handlers : Node → ExecutionContext → Except String ExecutionResult)
    (now : String) (node : Node) (context : ExecutionContext) :
    Except String ExecutionResult :=
  let md := assoc_insert context.metadata "current_node_id" (.str node.id)
  let md := assoc_insert md "current_node_type" (.str (node_type_name node.node_type))
  let md := assoc_insert md "execution_start" (.str now)
  let context2 := { context with metadata := md }
  match node.node_type with
  | .Webhook => .error "WebhookNode should not be executed directly"
  | .CronTrigger => .error "CronTrigger should not be executed directly"
  | .MCPTrigger => .error "MCPTrigger should not be executed directly"
  | .WebSocketTrigger => .error "WebSocketTrigger should not be executed directly"
  | .MQTTTrigger => .error "MQTTTrigger should not be executed directly"
  | _ => handlers node context2

/-- registry.rs CompiledWorkflow. -/
structure CompiledWorkflow where
  workflow : Workflow
  webhook_paths : List String
  start_node_ids : List String
  deriving Repr

/-- The metadata-extraction loop of registry.rs compile_single_workflow
(lines 169-186): walk the nodes in order; a Webhook node contributes its id
to the start list and, when its params carry a string path, that path to the
webhook path list; a CronTrigger contributes its id; every other variant
contributes nothing. -/
def extract_compile_metadata : List Node → List String × List String
  | [] => ([], [])
  | node :: rest =>
    let tail := extract_compile_metadata rest
    match node.node_type with
    | .Webhook =>
      match (json_get node.params "path").bind json_as_str with
      | some p => (p :: tail.fst, node.id :: tail.snd)
      | none => (tail.fst, node.id :: tail.snd)
    | .CronTrigger => (tail.fst, node.id :: tail.snd)
    | _ => tail

/-- registry.rs compile_single_workflow (lines 165-198): extract webhook
paths and start node ids, fail only when no start node exists. -/
def compile_single_workflow (w : Workflow) : Except String CompiledWorkflow :=
  let md := extract_compile_metadata w.nodes
  if md.snd.isEmpty then
    .error "Workflow must have at least one start node (WebhookNode or CronTrigger)"
  else
    .ok { workflow := w, webhook_paths := md.fst, start_node_ids := md.snd }

/-- scheduler.rs composite job key (line 153). -/
def job_id (workflow_id node_id : String) : String :=
  workflow_id ++ ":" ++ node_id

/-- HashMap::remove of one key from the job handle map. -/
def map_remove (m : List (String × Nat)) (k : String) : List (String × Nat) :=
  m.filter (fun kv => !(kv.fst = k : Bool))

/-- Handle lookup in the job handle map. -/
def map_get (m : List (String × Nat)) (k : String) : Option Nat :=
  assoc_get m k

/-- scheduler.rs remove_workflow_cron_triggers (lines 122-145): collect every
key of the handle map that starts with the workflow id string, then remove
each collected key (and its scheduler job). -/
def remove_workflow_cron_triggers (workflow_id : String)
    (job_uuid_map : List (String × Nat)) : List (String × Nat) :=
  let keys_to_remove := (job_uuid_map.map (fun kv => kv.fst)).filter
    (fun key => rust_starts_with key.data workflow_id.data)
  keys_to_remove.foldl map_remove job_uuid_map

/-- executor.rs execute_simple_table_query_node, response assembly
(lines 876-888): the rows returned by the bound query, already fetched and
column-decoded (the sqlx I/O boundary), become either the single record
directly when exactly one row matched, or the results/count/table envelope. -/
def simple_table_query_response (results : List Json) (table_name : String) :
    Json :=
  match results with
  | [r] => r
  | _ =>
    .obj [("results", .arr results),
          ("count", .num (Int.ofNat results.length)),
          ("table", .str table_name)]

/-- executor.rs execute_simple_table_query_node, result construction
(lines 890-894): the response wrapped in a one-element data array, metadata
passed through, continue. -/
def execute_simple_table_query_result (results : List Json)
    (table_name : String) (context : ExecutionContext) : ExecutionResult :=
  { data := [simple_table_query_response results table_name],
    metadata := context.metadata,
    should_continue := true }

/-- executor.rs execute_fun_logic_node (lines 502-552): the script parameter
is required; the Lua round trip (json_to_lua_string data setup, script
evaluation, lua_to_json conversion) is the parameter luaRun; an array result
becomes the next data array, anything else is wrapped in a one-element
array; metadata passes through and execution always continues. -/
def execute_fun_logic_node (luaRun : String → List Json → Except String Json)
    (node : Node) (context : ExecutionContext) :
    Except String ExecutionResult :=
  match (json_get node.params "script").bind json_as_str with
  | none => .error "FunLogicNode missing script parameter"
  | some script =>
    match luaRun script context.data with
    | .error e => .error ("Lua script execution failed: " ++ e)
    | .ok json_result =>
      let result_array :=
        match json_result with
        | .arr a => a
        | v => [v]
      .ok { data := result_array,
            metadata := context.metadata,
            should_continue := true }

/-- api/workflows.rs AppState, restricted to the purely functional content:
the storage map, the registry map, the scheduler handle map. -/
structure AppState where
  storage : List (String × Workflow)
  registry : List (String × CompiledWorkflow)
  scheduler : List (String × Nat)

/-- api/workflows.rs WorkflowResponse. -/
structure WorkflowResponse where
  id : String
  message : String
  deriving Repr

/-- An ASCII single quote, for the response message format strings. -/
def squote : String := String.singleton (Char.ofNat 39)

/-- api/workflows.rs update_workflow (lines 148-194): overwrite the body id
with the URL path id, reject an empty name with 400 and a missing workflow
with 404, save (upsert), reload into the registry (fetch back from storage,
compile, insert), reconcile the scheduler (the tokio-cron interaction is the
parameter sched), any step failure is 500. Storage I/O itself is assumed not
to fail (infrastructure failures are outside the functional model). -/
def update_workflow
    (sched : Workflow → List (String × Nat) →
      Except String (List (String × Nat)))
    (st : AppState) (id : String) (payload : Workflow) :
    Except Nat (WorkflowResponse × AppState) :=
  let workflow := { payload with id := id }
  if workflow.name = "" then .error 400
  else
    match assoc_get st.storage id with
    | none => .error 404
    | some _ =>
      let storage2 := assoc_insert st.storage workflow.id workflow
      match assoc_get storage2 workflow.id with
      | none => .error 500
      | some fresh =>
        match compile_single_workflow fresh with
        | .error _ => .error 500
        | .ok compiled =>
          let registry2 := assoc_insert st.registry workflow.id compiled
          match sched workflow st.scheduler with
          | .error _ => .error 500
          | .ok scheduler2 =>
            .ok ({ id := workflow.id,
                   message := "Workflow " ++ squote ++ workflow.name ++ squote
                     ++ " updated successfully" },
                 { storage := storage2, registry := registry2,
                   scheduler := scheduler2 })

/-- Executable cycle witness: some node has an outgoing edge from which it is
again reachable. -/
def workflow_has_cycle (w : Workflow) : Bool :=
  w.nodes.any (fun n =>
    (successors w n.id).any (fun t =>
      (find_reachable_nodes w t).contains n.id))

/-- Workflow body for the PUT witness, carrying a mismatched id. -/
def put_payload_workflow : Workflow :=
  { id := "other", name := "n",
    nodes := [{ id := "w", node_type := .Webhook,
                params := .obj [("path", .str "/p")] }],
    edges := [] }

/-- Application state for the PUT witness: workflow "wf" already stored. -/
def put_state : AppState :=
  { storage := [("wf", { put_payload_workflow with id := "wf" })],
    registry := [], scheduler := [] }

/-- l₁ is an initial segment of l₂. -/
def IsPrefixSeq {α : Type} (l₁ l₂ : List α) : Prop :=
  ∃ t, l₁ ++ t = l₂

/-- Whether the node carrying this id is of a type the engine filters out of
the execution list (Webhook or CronTrigger; engine.rs lines 126-128). -/
def is_webhook_or_cron_id (w : Workflow) (id : String) : Bool :=
  match (w.nodes.find? (fun n => n.id = id)).map (fun n => n.node_type) with
  | some t => is_webhook_or_cron t
  | none => false

/-- Concrete stand-in for the effectful node handlers: echo the context. -/
def handlers_stub : Node → ExecutionContext → Except String ExecutionResult :=
  fun _ ctx =>
    .ok { data := ctx.data, metadata := ctx.metadata, should_continue := true }

/-- Concrete executor: the dispatch of execute_node over the stub handlers. -/
def exec_stub : Node → ExecutionContext → Except String ExecutionResult :=
  execute_node handlers_stub "t0"

/-- Cyclic workflow with a Webhook start: a → b → a. -/
def cyclic_workflow : Workflow :=
  { id := "wf1", name := "w1",
    nodes :=
      [{ id := "w", node_type := .Webhook, params := .obj [("path", .str "/p")] },
       { id := "a", node_type := .FunLogic, params := .obj [] },
       { id := "b", node_type := .FunLogic, params := .obj [] }],
    edges := [⟨"w", "a"⟩, ⟨"a", "b"⟩, ⟨"b", "a"⟩] }

/-- Workflow whose Webhook entry leads only to a reserved MCPTrigger node. -/
def mcp_workflow : Workflow :=
  { id := "wf2", name := "w2",
    nodes :=
      [{ id := "w", node_type := .Webhook, params := .obj [("path", .str "/p")] },
       { id := "m", node_type := .MCPTrigger, params := .obj [] }],
    edges := [⟨"w", "m"⟩] }

/-- Workflow whose Webhook entry leads only to another Webhook node. -/
def webhook_chain_workflow : Workflow :=
  { id := "wf3", name := "w3",
    nodes :=
      [{ id := "w", node_type := .Webhook, params := .obj [("path", .str "/p")] },
       { id := "w2", node_type := .Webhook, params := .obj [("path", .str "/q")] }],
    edges := [⟨"w", "w2"⟩] }

/-- Workflow made of a single Webhook node with no edges. -/
def lone_webhook_workflow : Workflow :=
  { id := "wf3b", name := "w3b",
    nodes :=
      [{ id := "w", node_type := .Webhook, params := .obj [("path", .str "/p")] }],
    edges := [] }

/-- Workflow with one Webhook node that has no path parameter. -/
def pathless_webhook_workflow : Workflow :=
  { id := "wf5", name := "w5",
    nodes := [{ id := "w", node_type := .Webhook, params := .obj [] }],
    edges := [] }

/-- A list is a Boolean prefix of itself followed by anything. -/
theorem isPrefixOf_append_self (l t : List Char) : l.isPrefixOf (l ++ t) = true := by
  induction l with
  | nil => simp
  | cons c r ih => simp [ih]

/-- C6: every pin expression containing a blacklisted substring is rejected by
is_safe_lua_expression, and evaluate_input_pins never hands it to the Lua
evaluator: the result of evaluating such a pin is independent of the Lua
evaluation function, whatever whitelisted substrings the expression also
contains. -/
theorem blacklisted_pin_never_reaches_lua (expr p : List Char)
    (hp : p ∈ dangerous_patterns) (hc : rust_contains expr p = true) :
    is_safe_lua_expression expr = false ∧
    ∀ (lua1 lua2 : List Char → Except String Json)
      (parse : List Char → Json) (ctx : ExecutionContext),
      evaluate_pin lua1 parse ctx expr = evaluate_pin lua2 parse ctx expr := by
  have hany : dangerous_patterns.any (fun q => rust_contains expr q) = true :=
    List.any_eq_true.mpr ⟨p, hp, hc⟩
  have hfalse : is_safe_lua_expression expr = false := by
    unfold is_safe_lua_expression
    rw [hany]
    rfl
  refine ⟨hfalse, ?_⟩
  intro lua1 lua2 parse ctx
  simp only [evaluate_pin, hfalse, Bool.false_eq_true, if_false]

/-- C6 witness: the expression os.time() contains the blacklisted substring
os. (while also containing the whitelisted substring time()), and is rejected. -/
theorem blacklisted_pin_never_reaches_lua_witness :
    is_safe_lua_expression "os.time()".data = false :=
  (blacklisted_pin_never_reaches_lua "os.time()".data "os.".data
    (by decide) (by decide)).1

/-- C8: evaluating the pin $json yields the first element of the data sequence
(null when empty), and $json. followed by any path yields the dot-path walk
from the first element (null at a missing key or a non-object step); both
always return Ok, never an error. -/
theorem json_pin_evaluation (lua : List Char → Except String Json)
    (parse : List Char → Json) (ctx : ExecutionContext) :
    evaluate_pin lua parse ctx "$json".data =
      .ok ((ctx.data.get? 0).getD .null) ∧
    ∀ path : List Char,
      evaluate_pin lua parse ctx ("$json.".data ++ path) =
        .ok (json_field_walk ((ctx.data.get? 0).getD .null)
              (split_on_char '.' path)) := by
  constructor
  · rfl
  · intro path
    have h6 : "$json.".data = ['$', 'j', 's', 'o', 'n', '.'] := rfl
    have hpre : rust_starts_with ("$json.".data ++ path) "$json.".data = true :=
      isPrefixOf_append_self "$json.".data path
    have hdrop : ("$json.".data ++ path).drop 6 = path := by
      rw [h6]
      rfl
    unfold evaluate_pin
    rw [hpre, hdrop]
    rfl

/-- The compile-metadata loop computed in closed form: webhook paths are the
string path params of Webhook nodes that have one; start ids are the ids of
Webhook and CronTrigger nodes, in order. -/
theorem extract_compile_metadata_eq (ns : List Node) :
    extract_compile_metadata ns =
      (ns.filterMap (fun n =>
         if n.node_type = NodeType.Webhook
         then (json_get n.params "path").bind json_as_str
         else none),
       (ns.filter (fun n => is_webhook_or_cron n.node_type)).map
         (fun n => n.id)) := by
  induction ns with
  | nil => rfl
  | cons n rest ih =>
    cases hnt : n.node_type <;>
      simp_all [extract_compile_metadata, is_webhook_or_cron,
        List.filterMap_cons, List.filter_cons]
    cases hp : (json_get n.params "path").bind json_as_str <;>
      simp [hp]

/-- C5 (amended): for every workflow that compiles, webhook_paths equals the
path parameter values of exactly those Webhook nodes whose params carry a
string path (a Webhook node without one contributes no entry), and
start_node_ids equals the ids of the Webhook and CronTrigger nodes and is
non-empty; the compiled workflow embeds the input workflow unchanged. -/
theorem compiled_workflow_metadata (w : Workflow) (c : CompiledWorkflow)
    (h : compile_single_workflow w = .ok c) :
    c.workflow = w ∧
    c.webhook_paths = w.nodes.filterMap (fun n =>
      if n.node_type = NodeType.Webhook
      then (json_get n.params "path").bind json_as_str
      else none) ∧
    c.start_node_ids =
      (w.nodes.filter (fun n => is_webhook_or_cron n.node_type)).map
        (fun n => n.id) ∧
    c.start_node_ids ≠ [] := by
  simp only [compile_single_workflow, extract_compile_metadata_eq] at h
  split at h
  · exact absurd h (by simp)
  · rename_i hne
    injection h with h
    subst h
    refine ⟨rfl, rfl, rfl, ?_⟩
    intro hnil
    dsimp only at hnil
    rw [hnil] at hne
    exact hne rfl

/-- C5 witness: a workflow with one pathed Webhook and one CronTrigger. -/
theorem compiled_workflow_metadata_witness :
    ∃ c, compile_single_workflow cyclic_workflow = .ok c ∧
      c.webhook_paths = ["/p"] ∧ c.start_node_ids = ["w"] ∧
      c.start_node_ids ≠ [] :=
  ⟨{ workflow := cyclic_workflow, webhook_paths := ["/p"],
     start_node_ids := ["w"] },
   rfl,
   (compiled_workflow_metadata cyclic_workflow _ rfl).2.1,
   (compiled_workflow_metadata cyclic_workflow _ rfl).2.2.1,
   (compiled_workflow_metadata cyclic_workflow _ rfl).2.2.2⟩

/-- C5 counterexample: a workflow with one Webhook node lacking a path
parameter compiles with an empty webhook_paths list, so webhook_paths does
not have one entry per Webhook node. -/
theorem pathless_webhook_has_no_webhook_path :
    compile_single_workflow pathless_webhook_workflow =
      .ok { workflow := pathless_webhook_workflow, webhook_paths := [],
            start_node_ids := ["w"] } ∧
    (pathless_webhook_workflow.nodes.filter
      (fun n => decide (n.node_type = NodeType.Webhook))).length = 1 :=
  ⟨rfl, rfl⟩

/-- C1 (amended): compile_single_workflow performs no cycle detection: a
workflow whose edge graph contains a cycle still compiles successfully (and
is therefore stored in the registry by reload and init) as long as it has at
least one Webhook or CronTrigger node; cycles are only rejected at execution
time, by the toposort calls in the engine. -/
theorem cyclic_workflow_still_compiles (w : Workflow)
    (_hcyc : workflow_has_cycle w = true)
    (hstart : ∃ n, n ∈ w.nodes ∧ is_webhook_or_cron n.node_type = true) :
    ∃ c, compile_single_workflow w = .ok c ∧ c.workflow = w := by
  obtain ⟨n, hn, ht⟩ := hstart
  have hmem : n.id ∈ (w.nodes.filter
      (fun n => is_webhook_or_cron n.node_type)).map (fun n => n.id) :=
    List.mem_map_of_mem _ (List.mem_filter.mpr ⟨hn, ht⟩)
  have hne : ((w.nodes.filter
      (fun n => is_webhook_or_cron n.node_type)).map
        (fun n => n.id)).isEmpty = false := by
    cases hl : (w.nodes.filter
        (fun n => is_webhook_or_cron n.node_type)).map (fun n => n.id) with
    | nil => rw [hl] at hmem; cases hmem
    | cons a t => rfl
  unfold compile_single_workflow
  rw [extract_compile_metadata_eq]
  simp only [hne, Bool.false_eq_true, if_false]
  exact ⟨_, rfl, rfl⟩

/-- C1 witness: the concrete cyclic workflow satisfies both hypotheses. -/
theorem cyclic_workflow_still_compiles_witness :
    ∃ c, compile_single_workflow cyclic_workflow = .ok c ∧
      c.workflow = cyclic_workflow :=
  cyclic_workflow_still_compiles cyclic_workflow (by decide)
    ⟨{ id := "w", node_type := .Webhook,
       params := .obj [("path", .str "/p")] },
     List.Mem.head _, rfl⟩

/-- C1 counterexample: the workflow with cycle a → b → a compiles to a
CompiledWorkflow instead of failing. -/
theorem cyclic_workflow_compiles_concrete :
    workflow_has_cycle cyclic_workflow = true ∧
    compile_single_workflow cyclic_workflow =
      .ok { workflow := cyclic_workflow, webhook_paths := ["/p"],
            start_node_ids := ["w"] } :=
  ⟨by decide, rfl⟩

/-- Handle lookup on a consed map. -/
theorem map_get_cons (kv : String × Nat) (t : List (String × Nat)) (k : String) :
    map_get (kv :: t) k = if kv.fst = k then some kv.snd else map_get t k := by
  by_cases h : kv.fst = k
  · rw [if_pos h]
    unfold map_get assoc_get
    rw [List.find?_cons_of_pos _ (by simpa using h)]
    rfl
  · rw [if_neg h]
    unfold map_get assoc_get
    rw [List.find?_cons_of_neg _ (by simpa using h)]

/-- Handle lookup through a key filter. -/
theorem map_get_filter (m : List (String × Nat)) (q : String → Bool)
    (k : String) :
    map_get (m.filter (fun kv => q kv.fst)) k =
      if q k then map_get m k else none := by
  induction m with
  | nil => cases hq : q k <;> simp [map_get, assoc_get, hq]
  | cons kv t ih =>
    rw [List.filter_cons]
    by_cases hk : kv.fst = k <;> cases hq : q kv.fst <;>
      simp_all [map_get_cons]

/-- Removing a list of keys one by one is filtering them all out at once. -/
theorem foldl_map_remove_eq_filter (K : List String)
    (m : List (String × Nat)) :
    K.foldl map_remove m = m.filter (fun kv => !(K.contains kv.fst)) := by
  induction K generalizing m with
  | nil => simp
  | cons k K ih =>
    rw [List.foldl_cons, ih]
    unfold map_remove
    rw [List.filter_filter]
    apply List.filter_congr
    intro kv _
    by_cases hk : kv.fst = k <;> cases hK : K.contains kv.fst <;>
      simp_all [List.contains_cons, Bool.and_comm]

/-- remove_workflow_cron_triggers retains exactly the handles whose key does
not start with the workflow id string. -/
theorem remove_workflow_cron_triggers_eq_filter (wid : String)
    (m : List (String × Nat)) :
    remove_workflow_cron_triggers wid m =
      m.filter (fun kv => !(rust_starts_with kv.fst.data wid.data)) := by
  unfold remove_workflow_cron_triggers
  rw [foldl_map_remove_eq_filter]
  apply List.filter_congr
  intro kv hm
  by_cases hs : rust_starts_with kv.fst.data wid.data = true
  · have hmem : kv.fst ∈ (m.map (fun kv => kv.fst)).filter
        (fun key => rust_starts_with key.data wid.data) :=
      List.mem_filter.mpr ⟨List.mem_map_of_mem _ hm, hs⟩
    simp_all [List.contains_iff_exists_mem_beq]
  · have hnot : kv.fst ∉ (m.map (fun kv => kv.fst)).filter
        (fun key => rust_starts_with key.data wid.data) := by
      intro hmem
      exact hs (List.mem_filter.mp hmem).2
    simp_all [List.contains_iff_exists_mem_beq]

/-- C4 (amended): remove(workflow_id) removes exactly the handles whose
composite key has the workflow id as a string prefix. Handles of a workflow
whose key does not extend that string survive unchanged, but a different
workflow id that merely extends the removed one (for example removing "a"
while "ab" is registered) also loses its handles. -/
theorem remove_cron_handles_string_prefix (wid k : String)
    (m : List (String × Nat)) :
    map_get (remove_workflow_cron_triggers wid m) k =
      if rust_starts_with k.data wid.data then none else map_get m k := by
  rw [remove_workflow_cron_triggers_eq_filter]
  have h := map_get_filter m (fun s => !(rust_starts_with s.data wid.data)) k
  rw [h]
  cases hs : rust_starts_with k.data wid.data <;> simp [hs]

/-- C4 counterexample: removing workflow "a" also removes the handle of the
distinct workflow "ab", because "a:..." and "ab:..." both start with "a". -/
theorem remove_cron_deletes_sibling_workflow :
    map_get (remove_workflow_cron_triggers "a"
      [(job_id "a" "n1", 1), (job_id "ab" "n2", 2)]) (job_id "ab" "n2") =
      none ∧
    map_get [(job_id "a" "n1", 1), (job_id "ab" "n2", 2)]
      (job_id "ab" "n2") = some 2 ∧
    ("ab" : String) ≠ "a" :=
  ⟨rfl, rfl, by decide⟩

/-- C7: a successful SimpleTableQuery execution yields, as its one-element
data sequence, the single matched row unwrapped when exactly one row
returned, and the results/count/table envelope in every other case; metadata
passes through and execution continues. -/
theorem simple_table_query_row_shape (results : List Json) (table : String)
    (ctx : ExecutionContext) :
    (∀ r, results = [r] →
      execute_simple_table_query_result results table ctx =
        { data := [r], metadata := ctx.metadata, should_continue := true }) ∧
    (results.length ≠ 1 →
      execute_simple_table_query_result results table ctx =
        { data := [.obj [("results", .arr results),
                         ("count", .num (Int.ofNat results.length)),
                         ("table", .str table)]],
          metadata := ctx.metadata, should_continue := true }) := by
  constructor
  · rintro r rfl
    rfl
  · intro hlen
    cases results with
    | nil => rfl
    | cons a t =>
      cases t with
      | nil => exact absurd rfl hlen
      | cons b t2 => rfl

/-- C7 witness: one row is unwrapped; zero rows produce the envelope. -/
theorem simple_table_query_row_shape_witness :
    execute_simple_table_query_result [.num 3] "posts" { data := [] } =
      { data := [.num 3], metadata := [], should_continue := true } ∧
    execute_simple_table_query_result [] "posts" { data := [] } =
      { data := [.obj [("results", .arr []), ("count", .num 0),
                       ("table", .str "posts")]],
        metadata := [], should_continue := true } :=
  ⟨(simple_table_query_row_shape [.num 3] "posts" { data := [] }).1
      (.num 3) rfl,
   (simple_table_query_row_shape [] "posts" { data := [] }).2 (by decide)⟩

/-- C10: a successful FunLogic execution always has continue true and passes
the metadata of its input context through unchanged, so a Lua script can
never soft-halt the DAG; the script return value becomes the data array when
it is an array and is wrapped in a one-element array otherwise. -/
theorem fun_logic_always_continues
    (luaRun : String → List Json → Except String Json)
    (node : Node) (ctx : ExecutionContext) (r : ExecutionResult)
    (h : execute_fun_logic_node luaRun node ctx = .ok r) :
    r.should_continue = true ∧ r.metadata = ctx.metadata ∧
    ∃ script v,
      (json_get node.params "script").bind json_as_str = some script ∧
      luaRun script ctx.data = .ok v ∧
      r.data = (match v with | .arr a => a | v => [v]) := by
  unfold execute_fun_logic_node at h
  split at h
  · cases h
  · rename_i script hscript
    split at h
    · cases h
    · rename_i v hv
      injection h with h
      subst h
      exact ⟨rfl, rfl, script, v, hscript, hv, rfl⟩

/-- C10 witness: a script returning the number 7 yields data [7],
continue true and untouched metadata. -/
theorem fun_logic_always_continues_witness :
    (execute_fun_logic_node (fun _ _ => .ok (.num 7))
        { id := "f", node_type := .FunLogic,
          params := .obj [("script", .str "return 7")] }
        { data := [], metadata := [("k", .null)] } =
      .ok { data := [.num 7], metadata := [("k", .null)],
            should_continue := true }) ∧
    ({ data := [.num 7], metadata := [("k", .null)],
       should_continue := true } : ExecutionResult).should_continue = true ∧
    ({ data := [.num 7], metadata := [("k", .null)],
       should_continue := true } : ExecutionResult).metadata =
      ({ data := [], metadata := [("k", .null)] } :
        ExecutionContext).metadata :=
  ⟨rfl,
   (fun_logic_always_continues (fun _ _ => .ok (.num 7))
     { id := "f", node_type := .FunLogic,
       params := .obj [("script", .str "return 7")] }
     { data := [], metadata := [("k", .null)] }
     { data := [.num 7], metadata := [("k", .null)],
       should_continue := true } rfl).1,
   (fun_logic_always_continues (fun _ _ => .ok (.num 7))
     { id := "f", node_type := .FunLogic,
       params := .obj [("script", .str "return 7")] }
     { data := [], metadata := [("k", .null)] }
     { data := [.num 7], metadata := [("k", .null)],
       should_continue := true } rfl).2.1⟩

/-- Looking up the freshly inserted key returns the inserted value. -/
theorem assoc_get_insert {α : Type} (l : List (String × α)) (k : String)
    (v : α) : assoc_get (assoc_insert l k v) k = some v := by
  induction l with
  | nil => simp [assoc_insert, assoc_get]
  | cons kv t ih =>
    unfold assoc_insert
    by_cases h : kv.fst = k
    · rw [if_pos h]
      unfold assoc_get
      rw [List.find?_cons_of_pos _ (by simp)]
      rfl
    · rw [if_neg h]
      unfold assoc_get
      rw [List.find?_cons_of_neg _ (by simpa using h)]
      exact ih

/-- C9: a PUT /api/workflows/id request stores, reloads and answers with the
id from the URL path: on success the response id is the path id, the stored
workflow and the registry entry carry the path id (with the rest of the body
unchanged), and the whole handler result is independent of whatever id the
body supplied. -/
theorem update_workflow_uses_path_id
    (sched : Workflow → List (String × Nat) →
      Except String (List (String × Nat)))
    (st : AppState) (id : String) (payload : Workflow)
    (resp : WorkflowResponse) (st2 : AppState)
    (h : update_workflow sched st id payload = .ok (resp, st2)) :
    resp.id = id ∧
    assoc_get st2.storage id =
      some { payload with id := id } ∧
    (∃ cw, assoc_get st2.registry id = some cw ∧
      cw.workflow = { payload with id := id }) ∧
    ∀ v, update_workflow sched st id { payload with id := v } =
      .ok (resp, st2) := by
  have hindep : ∀ v, update_workflow sched st id { payload with id := v } =
      update_workflow sched st id payload := fun _ => rfl
  have horig := h
  simp only [update_workflow] at h
  split at h
  · cases h
  · split at h
    · cases h
    · split at h
      · rename_i fresh hfresh
        rw [assoc_get_insert] at hfresh
        cases hfresh
      · rename_i fresh hfresh
        rw [assoc_get_insert] at hfresh
        injection hfresh with hfresh
        subst hfresh
        split at h
        · cases h
        · rename_i compiled hcompiled
          split at h
          · cases h
          · injection h with h
            injection h with hresp hst
            subst hresp
            subst hst
            refine ⟨rfl, ?_, ?_, ?_⟩
            · exact assoc_get_insert st.storage id { payload with id := id }
            · exact ⟨compiled, assoc_get_insert st.registry id compiled,
                (compiled_workflow_metadata _ _ hcompiled).1⟩
            · exact fun v => (hindep v).trans horig

/-- A workflow whose node ids are a pair joined by an edge admits exactly one
topological order. -/
theorem topo_order_pair_unique (w : Workflow) (a b : String)
    (hids : node_ids w = [a, b]) (hedge : (⟨a, b⟩ : Edge) ∈ w.edges)
    (t : List String) (ht : IsTopoOrder w t) : t = [a, b] := by
  have hlen : t.length = 2 := by
    have hp := ht.perm.length_eq
    rw [hids] at hp
    simpa using hp
  exact ((ht.respects _ hedge).eq_of_length (by simp [hlen])).symm

/-- C3 (amended): execute_workflow raises the empty-flow error
("Start node has no connected processing nodes") exactly in the narrower
situation where the entry node is a Webhook or CronTrigger occupying the
last position of the topological order — as is always the case when the
workflow consists of the trigger alone. When further nodes follow the entry
in the order, execution can instead complete successfully even though no
non-trigger node is reachable. -/
theorem trigger_entry_last_in_topo_fails
    (exec : Node → ExecutionContext → Except String ExecutionResult)
    (w : Workflow) (topo : List String) (start : String)
    (ctx : ExecutionContext) (sn : Node) (p : Nat)
    (hval : edges_valid w = true)
    (hfind : w.nodes.find? (fun n => n.id = start) = some sn)
    (htrig : is_webhook_or_cron sn.node_type = true)
    (hpos : topo.findIdx? (fun id => id = start) = some p)
    (hlast : p + 1 ≥ topo.length) :
    execute_workflow_from_topo exec w topo start ctx =
      ([], .error "Start node has no connected processing nodes") := by
  have hd : decide (p + 1 ≥ topo.length) = true := decide_eq_true hlast
  unfold execute_workflow_from_topo
  rw [hval]
  simp only [hfind, hpos, htrig, hd]
  rfl

/-- C3 witness: a workflow that is a single Webhook node fails with the
empty-flow error. -/
theorem trigger_entry_last_in_topo_fails_witness :
    execute_workflow_from_topo exec_stub lone_webhook_workflow ["w"] "w"
      { data := [] } =
      ([], .error "Start node has no connected processing nodes") :=
  trigger_entry_last_in_topo_fails exec_stub lone_webhook_workflow ["w"] "w"
    { data := [] }
    { id := "w", node_type := .Webhook, params := .obj [("path", .str "/p")] }
    0 (by decide) rfl rfl rfl (by decide)

/-- The only topological order of the Webhook → Webhook workflow. -/
theorem webhook_chain_topo_unique (t : List String)
    (ht : IsTopoOrder webhook_chain_workflow t) : t = ["w", "w2"] :=
  topo_order_pair_unique webhook_chain_workflow "w" "w2" rfl
    (List.Mem.head _) t ht

/-- C3 counterexample: the Webhook entry of webhook_chain_workflow reaches no
non-trigger node, yet execution completes successfully with nothing
dispatched instead of failing with EmptyFlow, because the downstream Webhook
node follows the entry in the (unique) topological order. -/
theorem webhook_chain_executes_successfully :
    execute_workflow_from_topo exec_stub webhook_chain_workflow ["w", "w2"]
      "w" { data := [.null] } =
      ([], .ok { data := [.null], metadata := [],
                 should_continue := true }) ∧
    (find_reachable_nodes webhook_chain_workflow "w").all
      (fun id => is_webhook_or_cron_id webhook_chain_workflow id) = true :=
  ⟨rfl, rfl⟩

/-- Elements accumulated by the bfs_visit fold come from the initial
accumulator or from the target list. -/
theorem bfs_visit_fold_mem (ts : List String) :
    ∀ acc : List String × List String,
      (∀ x ∈ (ts.foldl (fun acc t =>
          if acc.fst.contains t then acc
          else (acc.fst ++ [t], acc.snd ++ [t])) acc).fst,
        x ∈ acc.fst ∨ x ∈ ts) ∧
      (∀ x ∈ (ts.foldl (fun acc t =>
          if acc.fst.contains t then acc
          else (acc.fst ++ [t], acc.snd ++ [t])) acc).snd,
        x ∈ acc.snd ∨ x ∈ ts) := by
  induction ts with
  | nil => exact fun acc => ⟨fun x hx => Or.inl hx, fun x hx => Or.inl hx⟩
  | cons t ts ih =>
    intro acc
    rw [List.foldl_cons]
    constructor
    · intro x hx
      rcases ((ih _).1 x hx) with h | h
      · by_cases hc : acc.fst.contains t
        · rw [if_pos hc] at h
          exact Or.inl h
        · rw [if_neg hc] at h
          rcases List.mem_append.mp h with h' | h'
          · exact Or.inl h'
          · simp at h'
            exact Or.inr (by simp [h'])
      · exact Or.inr (List.mem_cons_of_mem _ h)
    · intro x hx
      rcases ((ih _).2 x hx) with h | h
      · by_cases hc : acc.fst.contains t
        · rw [if_pos hc] at h
          exact Or.inl h
        · rw [if_neg hc] at h
          rcases List.mem_append.mp h with h' | h'
          · exact Or.inl h'
          · simp at h'
            exact Or.inr (by simp [h'])
      · exact Or.inr (List.mem_cons_of_mem _ h)

/-- BFS stays inside any set that contains the initially visited ids and is
closed under the successor map. -/
theorem bfs_reach_subset (w : Workflow) (S : List String)
    (hsucc : ∀ id, ∀ x ∈ successors w id, x ∈ S) :
    ∀ fuel queue visited, (∀ x ∈ visited, x ∈ S) →
      ∀ x ∈ bfs_reach w fuel queue visited, x ∈ S := by
  intro fuel
  induction fuel with
  | zero => exact fun queue visited hv x hx => hv x hx
  | succ fuel ih =>
    intro queue visited hv x hx
    cases queue with
    | nil => exact hv x hx
    | cons current q =>
      rw [bfs_reach] at hx
      refine ih _ _ ?_ x hx
      intro y hy
      rcases (bfs_visit_fold_mem (successors w current) (visited, [])).1 y
          hy with h | h
      · exact hv y h
      · exact hsucc current y h

/-- Under valid edges, every id reachable from a known node id is a known
node id. -/
theorem reachable_subset_node_ids (w : Workflow) (start : String)
    (hval : edges_valid w = true) (hstart : start ∈ node_ids w) :
    ∀ x ∈ find_reachable_nodes w start, x ∈ node_ids w := by
  apply bfs_reach_subset w (node_ids w)
  · intro id x hx
    obtain ⟨e, he, hdst⟩ := List.mem_map.mp hx
    have hmem : e ∈ w.edges := (List.mem_filter.mp he).1
    have hall := List.all_eq_true.mp hval e hmem
    simp only [Bool.and_eq_true] at hall
    rw [← hdst]
    simpa [List.contains_iff_exists_mem_beq] using hall.2
  · intro x hx
    simp at hx
    rwa [hx]

/-- Every topological order forces the edges of the workflow to refer to
known node ids on both sides. -/
theorem edges_valid_of_topo (w : Workflow) (topo : List String)
    (ht : IsTopoOrder w topo) : edges_valid w = true := by
  apply List.all_eq_true.mpr
  intro e he
  have hsub := ht.respects e he
  have hsrc : e.src ∈ node_ids w :=
    ht.perm.mem_iff.mp (hsub.subset (by simp))
  have hdst : e.dst ∈ node_ids w :=
    ht.perm.mem_iff.mp (hsub.subset (by simp))
  simp [List.contains_iff_exists_mem_beq]
  exact ⟨hsrc, hdst⟩

/-- A known node id can be looked up in the node list. -/
theorem find_node_of_mem (w : Workflow) (id : String)
    (h : id ∈ node_ids w) :
    ∃ n, w.nodes.find? (fun nn => nn.id = id) = some n := by
  obtain ⟨n, hn, hid⟩ := List.mem_map.mp h
  have hsome : (w.nodes.find? (fun nn => nn.id = id)).isSome := by
    rw [List.find?_isSome]
    exact ⟨n, hn, by simp [hid]⟩
  exact Option.isSome_iff_exists.mp hsome

/-- The trace of the execution loop is an initial segment of the ids of the
non-Webhook nodes of its input list. -/
theorem exec_loop_trace_prefix
    (exec : Node → ExecutionContext → Except String ExecutionResult)
    (l : List Node) :
    ∀ ctx cur, IsPrefixSeq (exec_loop exec l ctx cur).fst
      ((l.filter (fun n =>
         !(decide (n.node_type = NodeType.Webhook)))).map (fun n => n.id)) := by
  induction l with
  | nil => exact fun ctx cur => ⟨_, rfl⟩
  | cons node rest ih =>
    intro ctx cur
    rw [exec_loop]
    by_cases hc : cur.should_continue = false
    · rw [if_pos hc]
      exact ⟨_, rfl⟩
    · rw [if_neg hc]
      by_cases hw : node.node_type = NodeType.Webhook
      · rw [if_pos hw, List.filter_cons, if_neg (by simp [hw])]
        exact ih _ _
      · rw [if_neg hw, List.filter_cons, if_pos (by simp [hw])]
        cases hex : exec node
            { ctx with data := cur.data, metadata := cur.metadata } with
        | error e => exact ⟨_, rfl⟩
        | ok r =>
          obtain ⟨t, htt⟩ := ih
            { ctx with data := cur.data, metadata := cur.metadata } r
          exact ⟨t, by simp [htt]⟩

/-- Every node of the engine execution list passes the loop-internal
non-Webhook filter. -/
theorem engine_keep_eq (w : Workflow) (reach : List String) (id : String)
    (n : Node) (hfind : w.nodes.find? (fun nn => nn.id = id) = some n) :
    engine_keep w reach id =
      if reach.contains id && !is_webhook_or_cron n.node_type
      then some n else none := by
  unfold engine_keep
  rw [hfind]

/-- When the id is unknown the engine filter drops it. -/
theorem engine_keep_eq_none (w : Workflow) (reach : List String)
    (id : String)
    (hfind : w.nodes.find? (fun nn => nn.id = id) = none) :
    engine_keep w reach id = none := by
  unfold engine_keep
  rw [hfind]

/-- Every node of the engine execution list passes the loop-internal
non-Webhook filter. -/
theorem nodes_to_execute_no_webhook (w : Workflow) (reach : List String)
    (topo : List String) :
    (topo.filterMap (engine_keep w reach)).filter
        (fun n => !(decide (n.node_type = NodeType.Webhook))) =
      topo.filterMap (engine_keep w reach) := by
  apply List.filter_eq_self.mpr
  intro n hn
  obtain ⟨id, _, hf⟩ := List.mem_filterMap.mp hn
  cases hfind : w.nodes.find? (fun nn => nn.id = id) with
  | none => rw [engine_keep_eq_none w reach id hfind] at hf; cases hf
  | some n0 =>
    rw [engine_keep_eq w reach id n0 hfind] at hf
    by_cases hcond : reach.contains id && !is_webhook_or_cron n0.node_type
    · rw [if_pos hcond] at hf
      injection hf with hf
      subst hf
      have hnt : (!is_webhook_or_cron n0.node_type) = true := by
        have := hcond
        simp only [Bool.and_eq_true] at this
        exact this.2
      simp [is_webhook_or_cron] at hnt
      simp [hnt.1]
    · rw [if_neg hcond] at hf
      cases hf

/-- The ids of the engine execution list are the topological order filtered
to the reachable, non-Webhook/CronTrigger ids. -/
theorem nodes_to_execute_ids_eq (w : Workflow) (reach : List String)
    (topo : List String)
    (hsub : ∀ id ∈ topo,
      ∃ n, w.nodes.find? (fun nn => nn.id = id) = some n) :
    (topo.filterMap (engine_keep w reach)).map (fun n => n.id) =
      topo.filter (fun id =>
        reach.contains id && !is_webhook_or_cron_id w id) := by
  induction topo with
  | nil => rfl
  | cons id rest ih =>
    obtain ⟨n, hn⟩ := hsub id (List.mem_cons_self _ _)
    have hid : n.id = id := by
      have := List.find?_some hn
      simpa using this
    have hty : is_webhook_or_cron_id w id = is_webhook_or_cron n.node_type := by
      simp [is_webhook_or_cron_id, hn]
    have hrest := ih (fun i hi => hsub i (List.mem_cons_of_mem _ hi))
    rw [List.filter_cons, hty]
    by_cases hr : reach.contains id = true
    · by_cases htr : is_webhook_or_cron n.node_type = true
      · have hcf : (reach.contains id && !is_webhook_or_cron n.node_type)
            = false := by
          rw [htr]
          simp
        have hkeep : engine_keep w reach id = none := by
          rw [engine_keep_eq w reach id n hn, if_neg (by rw [hcf]; exact Bool.false_ne_true)]
        rw [List.filterMap_cons_none hkeep, if_neg (by rw [hcf]; exact Bool.false_ne_true), hrest]
      · have hbf : is_webhook_or_cron n.node_type = false := by
          cases hb : is_webhook_or_cron n.node_type
          · rfl
          · exact absurd hb htr
        have hct : (reach.contains id && !is_webhook_or_cron n.node_type)
            = true := by
          rw [hr, hbf]
          rfl
        have hkeep : engine_keep w reach id = some n := by
          rw [engine_keep_eq w reach id n hn, if_pos hct]
        rw [List.filterMap_cons_some hkeep, if_pos hct, List.map_cons,
          hrest, hid]
    · have hcf : (reach.contains id && !is_webhook_or_cron n.node_type)
          = false := by
        cases hb : reach.contains id
        · rfl
        · exact absurd hb hr
      have hkeep : engine_keep w reach id = none := by
        rw [engine_keep_eq w reach id n hn, if_neg (by rw [hcf]; exact Bool.false_ne_true)]
      rw [List.filterMap_cons_none hkeep, if_neg (by rw [hcf]; exact Bool.false_ne_true), hrest]

/-- Boolean list containment agrees with membership. -/
theorem contains_eq_true_iff (l : List String) (x : String) :
    l.contains x = true ↔ x ∈ l := by
  simp [List.contains_iff_exists_mem_beq]

/-- The engine result in the main (non-error) branch: the execution loop over
the reachable non-trigger nodes in topological order. -/
theorem execute_workflow_from_topo_main
    (exec : Node → ExecutionContext → Except String ExecutionResult)
    (w : Workflow) (topo : List String) (start : String)
    (ctx : ExecutionContext) (sn : Node) (p : Nat)
    (hval : edges_valid w = true)
    (hfind : w.nodes.find? (fun n => n.id = start) = some sn)
    (hpos : topo.findIdx? (fun id => id = start) = some p)
    (hcond : (is_webhook_or_cron sn.node_type &&
      decide (p + 1 ≥ topo.length)) = false) :
    execute_workflow_from_topo exec w topo start ctx =
      exec_loop exec
        (topo.filterMap (engine_keep w (find_reachable_nodes w start))) ctx
        { data := ctx.data, metadata := ctx.metadata,
          should_continue := true } := by
  unfold execute_workflow_from_topo
  rw [hval]
  simp only [hfind, hpos, hcond]
  rfl

/-- C2 (amended): the sequence of node ids the engine actually dispatches is
a prefix (bounded by early halt or by the first node error) of a topological
ordering of the subgraph forward-reachable from the entry with the Webhook
and CronTrigger nodes excluded. Only those two variants are filtered; the
reserved trigger variants (MCPTrigger, WebSocketTrigger, MQTTTrigger) are
not excluded and, when reachable, are dispatched (and then fail). -/
theorem dispatched_nodes_follow_topo_order
    (exec : Node → ExecutionContext → Except String ExecutionResult)
    (w : Workflow) (topo : List String) (start : String)
    (ctx : ExecutionContext)
    (hids : (node_ids w).Nodup) (hstart : start ∈ node_ids w)
    (htopo : IsTopoOrder w topo) :
    ∃ ord : List String,
      ord.Nodup ∧
      (∀ x, x ∈ ord ↔ x ∈ find_reachable_nodes w start) ∧
      (∀ e ∈ w.edges, e.src ∈ ord → e.dst ∈ ord →
        List.Sublist [e.src, e.dst] ord) ∧
      IsPrefixSeq (execute_workflow_from_topo exec w topo start ctx).fst
        (ord.filter (fun id => !is_webhook_or_cron_id w id)) := by
  have hval : edges_valid w = true := edges_valid_of_topo w topo htopo
  obtain ⟨sn, hsn⟩ := find_node_of_mem w start hstart
  refine ⟨topo.filter
      (fun id => (find_reachable_nodes w start).contains id),
    ?_, ?_, ?_, ?_⟩
  · exact List.Nodup.filter _ (htopo.perm.nodup_iff.mpr hids)
  · intro x
    constructor
    · intro hx
      exact (contains_eq_true_iff _ _).mp (List.mem_filter.mp hx).2
    · intro hx
      refine List.mem_filter.mpr ⟨?_, (contains_eq_true_iff _ _).mpr hx⟩
      exact htopo.perm.mem_iff.mpr
        (reachable_subset_node_ids w start hval hstart x hx)
  · intro e he hs hd
    have h1 := (List.mem_filter.mp hs).2
    have h2 := (List.mem_filter.mp hd).2
    have hsub := List.Sublist.filter
      (fun id => (find_reachable_nodes w start).contains id)
      (htopo.respects e he)
    have hf : [e.src, e.dst].filter
        (fun id => (find_reachable_nodes w start).contains id) =
        [e.src, e.dst] := by
      simp only [List.filter_cons, h1, h2, if_pos]
      rfl
    rwa [hf] at hsub
  · cases hidx : topo.findIdx? (fun id => id = start) with
    | none =>
      have heq : execute_workflow_from_topo exec w topo start ctx =
          ([], .error "Start node not found in topological order") := by
        unfold execute_workflow_from_topo
        rw [hval]
        simp only [hsn, hidx]
        rfl
      rw [heq]
      exact ⟨_, rfl⟩
    | some p =>
      cases hcond : (is_webhook_or_cron sn.node_type &&
          decide (p + 1 ≥ topo.length)) with
      | true =>
        have heq : execute_workflow_from_topo exec w topo start ctx =
            ([], .error "Start node has no connected processing nodes") := by
          unfold execute_workflow_from_topo
          rw [hval]
          simp only [hsn, hidx, hcond]
          rfl
        rw [heq]
        exact ⟨_, rfl⟩
      | false =>
        rw [execute_workflow_from_topo_main exec w topo start ctx sn p hval
          hsn hidx hcond]
        have hsub : ∀ id ∈ topo,
            ∃ n, w.nodes.find? (fun nn => nn.id = id) = some n :=
          fun id hi =>
            find_node_of_mem w id (htopo.perm.mem_iff.mp hi)
        have h1 := exec_loop_trace_prefix exec
          (topo.filterMap (engine_keep w (find_reachable_nodes w start)))
          ctx
          { data := ctx.data, metadata := ctx.metadata,
            should_continue := true }
        rw [nodes_to_execute_no_webhook,
          nodes_to_execute_ids_eq w (find_reachable_nodes w start) topo hsub]
          at h1
        rw [List.filter_filter]
        have hcomm : topo.filter
            (fun id => (find_reachable_nodes w start).contains id &&
              !is_webhook_or_cron_id w id) =
            topo.filter (fun id => !is_webhook_or_cron_id w id &&
              (find_reachable_nodes w start).contains id) :=
          List.filter_congr (fun x _ => Bool.and_comm _ _)
        rw [← hcomm]
        exact h1

/-- The only topological order of the Webhook → MCPTrigger workflow. -/
theorem mcp_topo_unique (t : List String)
    (ht : IsTopoOrder mcp_workflow t) : t = ["w", "m"] :=
  topo_order_pair_unique mcp_workflow "w" "m" rfl (List.Mem.head _) t ht

/-- C2 witness: the Webhook → Webhook workflow with its unique topological
order satisfies every hypothesis. -/
theorem dispatched_nodes_follow_topo_order_witness :
    ∃ ord : List String,
      ord.Nodup ∧
      (∀ x, x ∈ ord ↔
        x ∈ find_reachable_nodes webhook_chain_workflow "w") ∧
      (∀ e ∈ webhook_chain_workflow.edges, e.src ∈ ord → e.dst ∈ ord →
        List.Sublist [e.src, e.dst] ord) ∧
      IsPrefixSeq (execute_workflow_from_topo exec_stub
          webhook_chain_workflow ["w", "w2"] "w" { data := [] }).fst
        (ord.filter
          (fun id => !is_webhook_or_cron_id webhook_chain_workflow id)) :=
  dispatched_nodes_follow_topo_order exec_stub webhook_chain_workflow
    ["w", "w2"] "w" { data := [] } (by decide) (by decide)
    ⟨by decide, by decide⟩

/-- C2 counterexample: executing the Webhook → MCPTrigger workflow from its
entry under the unique topological order dispatches the reserved trigger
node "m" of type MCPTrigger, so the dispatched sequence is not free of
trigger-variant nodes (the execution then fails on that node). -/
theorem mcp_trigger_is_dispatched :
    execute_workflow_from_topo exec_stub mcp_workflow ["w", "m"] "w"
      { data := [] } =
      (["m"],
       .error ("Node execution failed for " ++ "m" ++ ": " ++
         "MCPTrigger should not be executed directly")) ∧
    (mcp_workflow.nodes.find? (fun n => n.id = "m")).map
      (fun n => n.node_type) = some NodeType.MCPTrigger :=
  ⟨rfl, rfl⟩

/-- C9 witness: a concrete PUT whose body carries a different id; the
response carries the path id. -/
theorem update_workflow_uses_path_id_witness :
    ∃ resp st2,
      update_workflow (fun _ s => .ok s) put_state "wf"
          put_payload_workflow = .ok (resp, st2) ∧
      resp.id = "wf" := by
  refine ⟨_, _, rfl, ?_⟩
  exact (update_workflow_uses_path_id (fun _ s => .ok s) put_state "wf"
    put_payload_workflow _ _ rfl).1

end Mechaway
